import Mathlib

/-!
Verification development for the image-processor library.

The development shallowly embeds the algorithmic core of the repository:
the file-naming utilities (src/utils/file-naming.utils.ts), the input
validator (src/utils/image-validator.ts), the configuration value object
(src/config/image-processing.config.ts) and the variant-generation
pipeline (src/services/image-pipeline.service.ts).

JavaScript buffers are modelled as lists of bytes, JS strings as Lean
strings (operated on through their character lists, mirroring the
index-based `lastIndexOf` / `substring` operations of the source),
thrown errors as an inductive type mirroring the error class hierarchy
of src/errors/image-processing.errors.ts, and the two external
capabilities (the sharp-based transform service and the storage driver)
as function-valued parameters.  The pipeline additionally records a
trace of capability invocations so that statements of the form
"capability X is never invoked" can be expressed.
-/

set_option autoImplicit false

namespace ImageProc

/-- A JS Buffer, modelled as its list of bytes. -/
abbrev Buffer := List Nat

/-- interface ImageSize of image-processing.interface.ts:
width plus an optional height. -/
structure ImageSize where
  width : Nat
  height : Option Nat := none
deriving DecidableEq, Repr

/-- interface ImageFormat of image-processing.interface.ts:
a format type string plus an optional quality. -/
structure ImageFormat where
  type : String
  quality : Option Nat := none
deriving DecidableEq, Repr

/-- interface DPRConfig of image-processing.interface.ts. -/
structure DPRConfig where
  ratios : List Nat
deriving DecidableEq, Repr

/-- The value content of ImageProcessingConfig (interface shape of
image-processing.interface.ts): the three configured axes, as the
pipeline reads them through the getters. -/
structure ImageProcessingConfig where
  sizes : List ImageSize
  formats : List ImageFormat
  dpr : DPRConfig
deriving DecidableEq, Repr

/-- The error classes of image-processing.errors.ts, as a closed
inductive.  The `generic` constructor stands for any thrown value that
is not one of the library's own error classes (a plain `Error`). -/
inductive JSError where
  | generic (message : String)
  | unsupportedFormat (format : String)
  | validationError (message : String)
  | processingFailed (message : String) (originalError : Option JSError)
  | storageError (message : String) (originalError : Option JSError)
deriving Repr

/-- The `message` property each constructor stores
(`super(message)` in the source classes). -/
def JSError.message : JSError → String
  | .generic m => m
  | .unsupportedFormat f => "Unsupported image format: " ++ f
  | .validationError m => m
  | .processingFailed m _ => m
  | .storageError m _ => m

/-- The machine-readable `code` field each subclass passes to the base
class (empty for a plain `Error`, which has none). -/
def JSError.code : JSError → String
  | .generic _ => ""
  | .unsupportedFormat _ => "UNSUPPORTED_FORMAT"
  | .validationError _ => "VALIDATION_ERROR"
  | .processingFailed _ _ => "PROCESSING_FAILED"
  | .storageError _ _ => "STORAGE_ERROR"

namespace JSError

/-- Structural equality test for JSError (used only to state decidable
facts about concrete error values). -/
def beq : JSError → JSError → Bool
  | .generic m, .generic m' => m == m'
  | .unsupportedFormat f, .unsupportedFormat f' => f == f'
  | .validationError m, .validationError m' => m == m'
  | .processingFailed m c, .processingFailed m' c' =>
      m == m' && match c, c' with
        | none, none => true
        | some e, some e' => beq e e'
        | _, _ => false
  | .storageError m c, .storageError m' c' =>
      m == m' && match c, c' with
        | none, none => true
        | some e, some e' => beq e e'
        | _, _ => false
  | _, _ => false

end JSError

namespace FileNamingUtils

/-- Index of the last occurrence of a character in a character list
(the JS `String.prototype.lastIndexOf`, with `none` for -1). -/
def lastIndexOfAux (c : Char) : List Char → Option Nat
  | [] => none
  | x :: xs =>
    match lastIndexOfAux c xs with
    | some j => some (j + 1)
    | none => if x = c then some 0 else none

/-- JS `filename.lastIndexOf(c)` on a Lean string. -/
def lastIndexOf (s : String) (c : Char) : Option Nat :=
  lastIndexOfAux c s.data

/-- FileNamingUtils.getFileExtension: `substring(lastDotIndex)` of the
filename, or the empty string when there is no dot. -/
def getFileExtension (filename : String) : String :=
  match lastIndexOf filename '.' with
  | none => ""
  | some i => ⟨filename.data.drop i⟩

/-- FileNamingUtils.getBaseName: `substring(0, lastDotIndex)` of the
filename, or the whole filename when there is no dot. -/
def getBaseName (filename : String) : String :=
  match lastIndexOf filename '.' with
  | none => filename
  | some i => ⟨filename.data.take i⟩

/-- FileNamingUtils.generateFileName: the variant name
`baseName_widthw@dprx.format`, with the DPR defaulting to 1. -/
def generateFileName (originalName : String) (width : Nat) (format : String)
    (dpr : Nat := 1) : String :=
  getBaseName originalName ++ "_" ++ toString width ++ "w@" ++ toString dpr
    ++ "x." ++ format

/-- FileNamingUtils.generateOriginalFileName.  The source draws a fresh
UUID from `uuidv4()`; the entropy is made an explicit `uuid` argument. -/
def generateOriginalFileName (uuid : String) (originalName : String) : String :=
  uuid ++ getFileExtension originalName

/-- FileNamingUtils.generateOriginalPath, with the source's default
base path. -/
def generateOriginalPath (uuid : String) (originalName : String)
    (basePath : String := "/uploads/originals") : String :=
  basePath ++ "/" ++ generateOriginalFileName uuid originalName

end FileNamingUtils

namespace ImageValidator

/-- The SUPPORTED_MIME_TYPES allow-list of image-validator.ts. -/
def SUPPORTED_MIME_TYPES : List String :=
  ["image/jpeg", "image/jpg", "image/png", "image/webp", "image/avif",
   "image/gif", "image/bmp", "image/tiff", "image/svg+xml"]

/-- The SUPPORTED_EXTENSIONS allow-list of image-validator.ts. -/
def SUPPORTED_EXTENSIONS : List String :=
  [".jpg", ".jpeg", ".png", ".webp", ".avif", ".gif", ".bmp", ".tiff", ".svg"]

/-- ImageValidator.getFileExtension (same body as the naming utils
version, duplicated in the source). -/
def getFileExtension (filename : String) : String :=
  match FileNamingUtils.lastIndexOf filename '.' with
  | none => ""
  | some i => ⟨filename.data.drop i⟩

/-- JS `toLowerCase`: lower-case every character. -/
def toLowerCase (s : String) : String :=
  ⟨s.data.map Char.toLower⟩

/-- ImageValidator.validateMimeType: throws UnsupportedImageFormatError
unless the lower-cased MIME type is in the allow-list. -/
def validateMimeType (mimeType : String) : Except JSError Unit :=
  if SUPPORTED_MIME_TYPES.contains (toLowerCase mimeType) then .ok ()
  else .error (.unsupportedFormat mimeType)

/-- ImageValidator.validateExtension: throws UnsupportedImageFormatError
unless the lower-cased extension is in the allow-list. -/
def validateExtension (filename : String) : Except JSError Unit :=
  let extension := getFileExtension filename
  if SUPPORTED_EXTENSIONS.contains (toLowerCase extension) then .ok ()
  else .error (.unsupportedFormat extension)

/-- ImageValidator.validateFileSize: throws ImageValidationError when
the buffer is longer than the limit (default 10 MiB). -/
def validateFileSize (buffer : Buffer) (maxSizeInBytes : Nat := 10 * 1024 * 1024) :
    Except JSError Unit :=
  if buffer.length > maxSizeInBytes then
    .error (.validationError
      ("File size exceeds maximum allowed size of " ++ toString maxSizeInBytes
        ++ " bytes"))
  else .ok ()

/-- ImageValidator.validateFile.  The buffer is optional because the
source guards `!buffer || buffer.length === 0`; the MIME and size checks
run under the source's JS truthiness tests `if (mimeType)` and
`if (maxSizeInBytes)` (an empty string and the number 0 are falsy). -/
def validateFile (buffer : Option Buffer) (filename : String)
    (mimeType : Option String := none) (maxSizeInBytes : Option Nat := none) :
    Except JSError Unit := do
  match buffer with
  | none => throw (.validationError "File buffer is empty")
  | some b =>
    if b.length = 0 then
      throw (.validationError "File buffer is empty")
    else
      validateExtension filename
      match mimeType with
      | some m => if m = "" then pure () else validateMimeType m
      | none => pure ()
      match maxSizeInBytes with
      | some n => if n = 0 then pure () else validateFileSize b n
      | none => pure ()

end ImageValidator

/-- A JS object used as a string-keyed dictionary, with insertion
order: an association list.  Models the `generatedFiles` object of the
pipeline. -/
abbrev Dict := List (String × List String)

/-- JS property read `d[k]` (as an Option). -/
def dictGet : Dict → String → Option (List String)
  | [], _ => none
  | (k', v) :: rest, k => if k' = k then some v else dictGet rest k

/-- JS property write `d[k] = v`: overwrites in place when the key
exists, otherwise appends the key in insertion order. -/
def dictSet : Dict → String → List String → Dict
  | [], k, v => [(k, v)]
  | (k', v') :: rest, k, v =>
    if k' = k then (k', v) :: rest else (k', v') :: dictSet rest k v

/-- JS `d[k].push(p)`.  When the key is absent the source would throw a
TypeError inside the per-tuple try block, leaving the dictionary
unchanged; the net effect on the dictionary is therefore a no-op. -/
def dictPush : Dict → String → String → Dict
  | [], _, _ => []
  | (k', v) :: rest, k, p =>
    if k' = k then (k', v ++ [p]) :: rest else (k', v) :: dictPush rest k p

/-- interface ProcessedImage of image-processor.service.ts. -/
structure ProcessedImage where
  buffer : Buffer
  format : String
  width : Nat
  height : Nat

/-- The two external collaborators the pipeline consumes: the sharp
transform service (its decodability check `validateImage` and its
resize/encode `processImage`) and the storage driver's `upload`. -/
structure Caps where
  validateImage : Buffer → Bool
  transform : Buffer → ImageSize → ImageFormat → Except JSError ProcessedImage
  upload : String → Buffer → Except JSError String

/-- One capability invocation, recorded so "never invokes X" claims can
be stated. -/
inductive Event where
  | validateImageCall
  | transformCall (width : Nat) (height : Option Nat) (formatType : String)
  | uploadCall (path : String)
deriving DecidableEq, Repr

namespace ImagePipelineService

open FileNamingUtils

/-- The body of one iteration of the innermost loop of
ImagePipelineService.processImage (lines 54-74): transform the buffer at
the DPR-scaled size, derive the variant name from the nominal width, and
upload; the per-tuple try/catch turns any failure into a skipped tuple
(`none`).  Also returns the capability invocations the iteration makes. -/
def runTuple (caps : Caps) (buffer : Buffer) (originalFilename : String)
    (size : ImageSize) (format : ImageFormat) (dprRatio : Nat) :
    Option String × List Event :=
  let actualSize : ImageSize :=
    { width := size.width * dprRatio,
      height := size.height.map (fun h => h * dprRatio) }
  match caps.transform buffer actualSize format with
  | .error _ => (none, [.transformCall actualSize.width actualSize.height format.type])
  | .ok processedImage =>
    let generatedFileName :=
      generateFileName originalFilename size.width format.type dprRatio
    match caps.upload generatedFileName processedImage.buffer with
    | .error _ =>
      (none, [.transformCall actualSize.width actualSize.height format.type,
              .uploadCall generatedFileName])
    | .ok generatedPath =>
      (some generatedPath,
       [.transformCall actualSize.width actualSize.height format.type,
        .uploadCall generatedFileName])

/-- The innermost `for (const dprRatio of ...)` loop, pushing each
successful path onto the format's list. -/
def runDprLoop (caps : Caps) (buffer : Buffer) (originalFilename : String)
    (size : ImageSize) (format : ImageFormat) :
    List Nat → Dict → Dict × List Event
  | [], d => (d, [])
  | r :: rs, d =>
    let step := runTuple caps buffer originalFilename size format r
    let d2 := match step.1 with
      | some p => dictPush d format.type p
      | none => d
    let rest := runDprLoop caps buffer originalFilename size format rs d2
    (rest.1, step.2 ++ rest.2)

/-- The middle `for (const format of ...)` loop. -/
def runFormatLoop (caps : Caps) (buffer : Buffer) (originalFilename : String)
    (size : ImageSize) (ratios : List Nat) :
    List ImageFormat → Dict → Dict × List Event
  | [], d => (d, [])
  | f :: fs, d =>
    let step := runDprLoop caps buffer originalFilename size f ratios d
    let rest := runFormatLoop caps buffer originalFilename size ratios fs step.1
    (rest.1, step.2 ++ rest.2)

/-- The outer `for (const size of ...)` loop. -/
def runSizeLoop (caps : Caps) (buffer : Buffer) (originalFilename : String)
    (formats : List ImageFormat) (ratios : List Nat) :
    List ImageSize → Dict → Dict × List Event
  | [], d => (d, [])
  | s :: ss, d =>
    let step := runFormatLoop caps buffer originalFilename s ratios formats d
    let rest := runSizeLoop caps buffer originalFilename formats ratios ss step.1
    (rest.1, step.2 ++ rest.2)

/-- Lines 46-49: initialize one empty list per configured format type. -/
def initDict (formats : List ImageFormat) : Dict :=
  formats.foldl (fun d f => dictSet d f.type []) []

/-- interface ImageProcessingResult of image-processing.interface.ts. -/
structure ImageProcessingResult where
  original : String
  generated : Dict
deriving DecidableEq, Repr

/-- Everything inside the outer `try` of
ImagePipelineService.processImage (lines 27-82): validation, the sharp
decodability check, the original upload (whose storage failure is
wrapped as a StorageError by `uploadFile`), then the triple loop over
sizes, formats and DPR ratios.  The fresh UUID consumed by
`generateOriginalPath` is an explicit argument.  Also returns the trace
of capability invocations. -/
def processImageBody (caps : Caps) (config : ImageProcessingConfig)
    (uuid : String) (buffer : Option Buffer) (originalFilename : String)
    (mimeType : Option String) (maxSizeInBytes : Option Nat) :
    Except JSError ImageProcessingResult × List Event :=
  match ImageValidator.validateFile buffer originalFilename mimeType maxSizeInBytes with
  | .error e => (.error e, [])
  | .ok _ =>
    let b := buffer.getD []
    if caps.validateImage b then
      let originalPath := generateOriginalPath uuid originalFilename
      match caps.upload originalPath b with
      | .error e =>
        (.error (.storageError
            ("Failed to upload file " ++ originalPath ++ ": " ++ e.message)
            (some e)),
         [.validateImageCall, .uploadCall originalPath])
      | .ok _ =>
        let d0 := initDict config.formats
        let loop := runSizeLoop caps b originalFilename config.formats
          config.dpr.ratios config.sizes d0
        (.ok { original := originalPath, generated := loop.1 },
         [.validateImageCall, .uploadCall originalPath] ++ loop.2)
    else
      (.error (.processingFailed "Invalid image file" none), [.validateImageCall])

/-- The `instanceof StorageError || instanceof ImageProcessingFailedError`
test of the final catch block (line 84). -/
def rethrownAsIs : JSError → Bool
  | .storageError _ _ => true
  | .processingFailed _ _ => true
  | _ => false

/-- The final catch block (lines 83-91): re-throw StorageError and
ImageProcessingFailedError unchanged, wrap anything else. -/
def catchWrap {α : Type} (r : Except JSError α) : Except JSError α :=
  match r with
  | .ok v => .ok v
  | .error e =>
    if rethrownAsIs e then .error e
    else .error (.processingFailed ("Pipeline processing failed: " ++ e.message) (some e))

/-- ImagePipelineService.processImage: the body wrapped by the final
catch block. -/
def processImage (caps : Caps) (config : ImageProcessingConfig)
    (uuid : String) (buffer : Option Buffer) (originalFilename : String)
    (mimeType : Option String := none) (maxSizeInBytes : Option Nat := none) :
    Except JSError ImageProcessingResult × List Event :=
  let r := processImageBody caps config uuid buffer originalFilename mimeType maxSizeInBytes
  (catchWrap r.1, r.2)

end ImagePipelineService

namespace FileNamingUtils

/-- Modelled from the spec: the basename of a filename is the filename
"with its final extension (last `.`-delimited suffix) stripped", and
equals the whole filename when it contains no dot.  Stated here by
dropping, on the reversed character list, everything up to and including
the last occurrence of the character. -/
def stripLastExt (c : Char) (l : List Char) : List Char :=
  match l.reverse.dropWhile (fun x => x != c) with
  | [] => l
  | _ :: rest => rest.reverse

/-- Modelled from the spec: the basename used by `deriveVariantName`. -/
def basenameSpec (s : String) : String :=
  ⟨stripLastExt '.' s.data⟩

/-- Modelled from the spec: `deriveVariantName` produces
`basename_widthw@dprRatiox.formatType`, with the DPR defaulting to 1. -/
def variantNameSpec (originalName : String) (width : Nat) (formatType : String)
    (dprRatio : Nat := 1) : String :=
  basenameSpec originalName ++ "_" ++ toString width ++ "w@" ++ toString dprRatio
    ++ "x." ++ formatType

end FileNamingUtils

namespace ImageValidator

/-- The composite check exactly as claim C8 words it: empty/absent
bytes fail; then the extension check runs unconditionally, the MIME
check runs whenever a mimeType argument is supplied, and the size check
runs whenever a maxBytes argument is supplied. -/
def validateFileClaim (buffer : Option Buffer) (filename : String)
    (mimeType : Option String) (maxSizeInBytes : Option Nat) :
    Except JSError Unit := do
  match buffer with
  | none => throw (.validationError "File buffer is empty")
  | some b =>
    if b.length = 0 then
      throw (.validationError "File buffer is empty")
    else
      validateExtension filename
      match mimeType with
      | some m => validateMimeType m
      | none => pure ()
      match maxSizeInBytes with
      | some n => validateFileSize b n
      | none => pure ()

/-- The composite check as amended: the MIME check runs only when a
truthy (non-empty) mimeType is supplied and the size check only when a
truthy (nonzero) maxBytes is supplied, matching the source's JS
truthiness guards. -/
def validateFileAmended (buffer : Option Buffer) (filename : String)
    (mimeType : Option String) (maxSizeInBytes : Option Nat) :
    Except JSError Unit := do
  match buffer with
  | none => throw (.validationError "File buffer is empty")
  | some b =>
    if b.length = 0 then
      throw (.validationError "File buffer is empty")
    else
      validateExtension filename
      match mimeType with
      | some m => if m = "" then pure () else validateMimeType m
      | none => pure ()
      match maxSizeInBytes with
      | some n => if n = 0 then pure () else validateFileSize b n
      | none => pure ()

end ImageValidator

namespace ImagePipelineService

/-- The paths of the tuples of the combination space whose transform
and upload both succeed and whose format type is `t`, in the pipeline's
size-major, format-middle, dpr-minor iteration order. -/
def successList (caps : Caps) (buffer : Buffer) (originalFilename : String)
    (sizes : List ImageSize) (formats : List ImageFormat) (ratios : List Nat)
    (t : String) : List String :=
  sizes.flatMap fun s => formats.flatMap fun f => ratios.flatMap fun r =>
    if f.type = t then (runTuple caps buffer originalFilename s f r).1.toList
    else []

end ImagePipelineService

namespace ConfigHeap

/-- Heap model for the aliasing behavior of
ImageProcessingConfig.setSizes and the `sizes` getter
(image-processing.config.ts): JS arrays are mutable heap cells, a JS
array reference is an index into the heap.  This structure is the heap
of allocated size arrays. -/
structure Heap where
  cells : List (List ImageSize)
deriving DecidableEq, Repr

/-- Allocate a fresh array cell holding the given contents and return
its reference. -/
def alloc (h : Heap) (v : List ImageSize) : Heap × Nat :=
  ({ cells := h.cells ++ [v] }, h.cells.length)

/-- Read the contents of an array through its reference. -/
def read (h : Heap) (r : Nat) : List ImageSize :=
  h.cells.getD r []

/-- Mutate an array in place through its reference (covers `push`,
index assignment, etc. on the array object). -/
def write (h : Heap) (r : Nat) (v : List ImageSize) : Heap :=
  { cells := h.cells.set r v }

/-- The part of the ImageProcessingConfig object relevant here: the
reference its private `_sizes` field holds. -/
structure ConfigObject where
  sizesRef : Nat
deriving DecidableEq, Repr

/-- ImageProcessingConfig.setSizes: `this._sizes = [...sizes]` — spread
the argument array into a freshly allocated copy. -/
def setSizes (h : Heap) (cfg : ConfigObject) (arg : Nat) : Heap × ConfigObject :=
  let a := alloc h (read h arg)
  (a.1, { cfg with sizesRef := a.2 })

/-- The ImageProcessingConfig `sizes` getter:
`return [...this._sizes]` — a fresh copy on every read. -/
def getSizes (h : Heap) (cfg : ConfigObject) : Heap × Nat :=
  alloc h (read h cfg.sizesRef)

end ConfigHeap

/-- Capability stub for which every call succeeds: the decodability
check accepts, the transform returns a fixed processed byte, the upload
echoes the path it was given. -/
def capsAllOk : Caps where
  validateImage := fun _ => true
  transform := fun _ s f => .ok ⟨[0], f.type, s.width, s.height.getD 0⟩
  upload := fun path _ => .ok path

/-- Capability stub whose storage upload always fails with a plain
`Error('Storage failed')`, as in the repository's pipeline test. -/
def capsUploadFail : Caps where
  validateImage := fun _ => true
  transform := fun _ s f => .ok ⟨[0], f.type, s.width, s.height.getD 0⟩
  upload := fun _ _ => .error (.generic "Storage failed")

/-- Capability stub that fails the transform for exactly the
(640, avif, 2) tuple (effective width 1280) and succeeds everywhere
else — the spec's partial-failure scenario. -/
def capsOneTupleFail : Caps where
  validateImage := fun _ => true
  transform := fun _ s f =>
    if f.type == "avif" && s.width == 1280 then
      .error (.processingFailed "Failed to process image: boom" none)
    else .ok ⟨[0], f.type, s.width, s.height.getD 0⟩
  upload := fun path _ => .ok path

/-- Capabilities built from total transform and upload functions:
every capability call succeeds. -/
def capsTotal (tf : Buffer → ImageSize → ImageFormat → ProcessedImage)
    (up : String → Buffer → String) : Caps where
  validateImage := fun _ => true
  transform := fun b s f => .ok (tf b s f)
  upload := fun p b => .ok (up p b)

/-- A concrete total transform function: echoes the requested size and
format around a fixed one-byte output. -/
def tfConst : Buffer → ImageSize → ImageFormat → ProcessedImage :=
  fun _ s f => ⟨[0], f.type, s.width, s.height.getD 0⟩

/-- A concrete total upload function: stores at the requested path and
returns it. -/
def upEcho : String → Buffer → String :=
  fun path _ => path

/-- A configuration whose sizes axis is empty. -/
def cfgEmptyAxis : ImageProcessingConfig where
  sizes := []
  formats := [{ type := "webp", quality := some 80 }]
  dpr := { ratios := [1, 2] }

/-- The spec's example configuration: sizes 320 and 640, formats webp
and avif, DPR ratios 1, 2, 3. -/
def cfgExample : ImageProcessingConfig where
  sizes := [{ width := 320 }, { width := 640 }]
  formats := [{ type := "webp", quality := some 80 }, { type := "avif", quality := some 80 }]
  dpr := { ratios := [1, 2, 3] }

/-- A one-tuple configuration used to instantiate theorems at small
concrete inputs. -/
def cfgSmall : ImageProcessingConfig where
  sizes := [{ width := 320 }]
  formats := [{ type := "webp", quality := some 80 }]
  dpr := { ratios := [1] }

/-- A configuration with two configured formats sharing the type
`webp` (same type, different quality). -/
def cfgDupFormats : ImageProcessingConfig where
  sizes := [{ width := 320 }]
  formats := [{ type := "webp", quality := some 80 }, { type := "webp", quality := some 60 }]
  dpr := { ratios := [1] }

/-! ## Helper lemmas about the naming functions -/

namespace FileNamingUtils

theorem lastIndexOfAux_eq_none (c : Char) (l : List Char) :
    lastIndexOfAux c l = none ↔ c ∉ l := by
  induction l with
  | nil => simp [lastIndexOfAux]
  | cons x xs ih =>
    simp only [lastIndexOfAux, List.mem_cons]
    cases h : lastIndexOfAux c xs with
    | some j =>
      simp only [h] at ih ⊢
      have hc : c ∈ xs := by
        by_contra hn
        simpa using ih.mpr hn
      simp [hc]
    | none =>
      simp only [h] at ih ⊢
      have hc : c ∉ xs := by simpa using ih
      by_cases hx : x = c
      · subst hx
        simp [hc]
      · have hcx : ¬c = x := fun h' => hx h'.symm
        simp [hx, hc, hcx]

theorem dropWhile_append_of_cons {α : Type} (p : α → Bool) (a b : List α)
    (y : α) (r : List α) (h : a.dropWhile p = y :: r) :
    (a ++ b).dropWhile p = y :: (r ++ b) := by
  induction a with
  | nil => simp [List.dropWhile] at h
  | cons x xs ih =>
    simp only [List.dropWhile, List.cons_append] at h ⊢
    cases hp : p x with
    | true =>
      simp only [hp, cond_true] at h ⊢
      exact ih h
    | false =>
      simp only [hp, cond_false] at h ⊢
      obtain ⟨h1, h2⟩ := List.cons.injEq .. ▸ h
      simp_all

theorem dropWhile_append_of_all {α : Type} (p : α → Bool) (a b : List α)
    (h : ∀ y ∈ a, p y = true) : (a ++ b).dropWhile p = b.dropWhile p := by
  induction a with
  | nil => simp
  | cons x xs ih =>
    have hx := h x (by simp)
    simp only [List.cons_append, List.dropWhile, hx, cond_true]
    exact ih (fun y hy => h y (by simp [hy]))

theorem dropWhile_ne_nil_of_mem {c : Char} {l : List Char} (h : c ∈ l) :
    l.dropWhile (fun x => x != c) ≠ [] := by
  induction l with
  | nil => cases h
  | cons x xs ih =>
    by_cases hx : x = c
    · subst hx
      simp [List.dropWhile]
    · have hm : c ∈ xs := by
        rcases List.mem_cons.mp h with h' | h'
        · exact absurd h'.symm hx
        · exact h'
      have hpx : (x != c) = true := by simp [hx]
      simp only [List.dropWhile, hpx, cond_true]
      exact ih hm

theorem take_lastIndexOf (c : Char) (l : List Char) :
    (match lastIndexOfAux c l with
     | none => l
     | some i => l.take i) = stripLastExt c l := by
  induction l with
  | nil => rfl
  | cons x xs ih =>
    cases h : lastIndexOfAux c xs with
    | some j =>
      have hc : c ∈ xs := by
        by_contra hn
        rw [(lastIndexOfAux_eq_none c xs).mpr hn] at h
        cases h
      have hcr : c ∈ xs.reverse := List.mem_reverse.mpr hc
      obtain ⟨y, r, hd⟩ : ∃ y r, xs.reverse.dropWhile (fun a => a != c) = y :: r := by
        cases hdw : xs.reverse.dropWhile (fun a => a != c) with
        | nil => exact absurd hdw (dropWhile_ne_nil_of_mem hcr)
        | cons y r => exact ⟨y, r, rfl⟩
      have ih' : xs.take j = r.reverse := by
        rw [h] at ih
        rw [stripLastExt, hd] at ih
        exact ih
      have hL : lastIndexOfAux c (x :: xs) = some (j + 1) := by
        simp [lastIndexOfAux, h]
      have hR : (x :: xs).reverse.dropWhile (fun a => a != c) = y :: (r ++ [x]) := by
        rw [List.reverse_cons]
        exact dropWhile_append_of_cons _ _ _ _ _ hd
      rw [hL, stripLastExt, hR]
      simp [List.take_succ_cons, ih']
    | none =>
      have hc : c ∉ xs := (lastIndexOfAux_eq_none c xs).mp h
      have hall : ∀ y ∈ xs.reverse, (y != c) = true := by
        intro y hy
        have hyx : y ∈ xs := List.mem_reverse.mp hy
        simp only [bne_iff_ne, ne_eq]
        intro hyc
        exact hc (hyc ▸ hyx)
      by_cases hx : x = c
      · subst hx
        have hL : lastIndexOfAux x (x :: xs) = some 0 := by
          simp [lastIndexOfAux, h]
        have hR : (x :: xs).reverse.dropWhile (fun a => a != x) = [x] := by
          rw [List.reverse_cons, dropWhile_append_of_all _ _ _ hall]
          simp [List.dropWhile]
        rw [hL, stripLastExt, hR]
        simp
      · have hL : lastIndexOfAux c (x :: xs) = none := by
          simp [lastIndexOfAux, h, hx]
        have hR : (x :: xs).reverse.dropWhile (fun a => a != c) = [] := by
          rw [List.reverse_cons]
          refine List.dropWhile_eq_nil_iff.mpr ?_
          intro y hy
          rcases List.mem_append.mp hy with h' | h'
          · exact hall y h'
          · simp only [List.mem_singleton] at h'
            subst h'
            simp [hx]
        rw [hL, stripLastExt, hR]

theorem getBaseName_eq_basenameSpec (s : String) :
    getBaseName s = basenameSpec s := by
  obtain ⟨l⟩ := s
  have key := take_lastIndexOf '.' l
  simp only [getBaseName, basenameSpec, lastIndexOf]
  cases h : lastIndexOfAux '.' l with
  | none =>
    rw [h] at key
    exact congrArg String.mk key
  | some i =>
    rw [h] at key
    exact congrArg String.mk key

end FileNamingUtils

/-! ## Claim theorems -/

@[simp]
theorem except_bind_error {ε α β : Type} (e : ε) (f : α → Except ε β) :
    (Except.error e >>= f) = Except.error e := rfl

@[simp]
theorem except_bind_ok {ε α β : Type} (a : α) (f : α → Except ε β) :
    (Except.ok a >>= f) = f a := rfl

/-- C7: the variant-naming function returns
`basename_widthw@dprRatiox.formatType` where the basename is the
original name with the suffix after its last dot removed (the whole
name when it has no dot), and an omitted DPR defaults to 1; in
particular the two example inputs of the spec produce
`pic_320w@2x.webp` and `pic_320w@1x.webp`. -/
theorem claimC7 :
    (∀ (originalName : String) (width : Nat) (formatType : String) (dprRatio : Nat),
      FileNamingUtils.generateFileName originalName width formatType dprRatio =
        FileNamingUtils.variantNameSpec originalName width formatType dprRatio)
    ∧ FileNamingUtils.generateFileName "pic.jpg" 320 "webp" 2 = "pic_320w@2x.webp"
    ∧ FileNamingUtils.generateFileName "pic.jpg" 320 "webp" = "pic_320w@1x.webp" := by
  refine ⟨fun n w f d => ?_, by rfl, by rfl⟩
  simp [FileNamingUtils.generateFileName, FileNamingUtils.variantNameSpec,
    FileNamingUtils.getBaseName_eq_basenameSpec]

/-- C8 counterexample: the claim says the size check runs whenever a
maxBytes argument is supplied and the MIME check whenever a mimeType
argument is supplied, but the source guards both with JS truthiness, so
a supplied maxBytes of 0 (under which the 1-byte buffer would fail the
size check) and a supplied empty mimeType (which is not in the
allow-list) are both skipped and validation succeeds, while the claim
as stated (validateFileClaim) fails on both inputs. -/
theorem claimC8_counterexample :
    ImageValidator.validateFile (some [1]) "a.jpg" none (some 0) = .ok ()
    ∧ ImageValidator.validateFileClaim (some [1]) "a.jpg" none (some 0) =
        .error (.validationError "File size exceeds maximum allowed size of 0 bytes")
    ∧ ImageValidator.validateFile (some [1]) "a.jpg" (some "") none = .ok ()
    ∧ ImageValidator.validateFileClaim (some [1]) "a.jpg" (some "") none =
        .error (.unsupportedFormat "") :=
  ⟨rfl, rfl, rfl, rfl⟩

/-- C8 (amended): the composite check fails with the empty-buffer
ValidationFailed error exactly on an absent or zero-length buffer;
otherwise the extension check runs first and unconditionally, the MIME
check runs only for a supplied non-empty (truthy) mimeType, the size
check runs only for a supplied nonzero (truthy) maxBytes, each
constituent failure propagates unchanged as the first failing check's
error, a supplied empty mimeType or zero maxBytes behaves exactly like
an absent one, and when no executed check fails the composite
succeeds. -/
theorem claimC8 :
    (∀ fn mi mx, ImageValidator.validateFile none fn mi mx =
        .error (.validationError "File buffer is empty"))
    ∧ (∀ fn mi mx, ImageValidator.validateFile (some []) fn mi mx =
        .error (.validationError "File buffer is empty"))
    ∧ (∀ (b : Buffer) fn mi mx e, b ≠ [] →
        ImageValidator.validateExtension fn = .error e →
        ImageValidator.validateFile (some b) fn mi mx = .error e)
    ∧ (∀ (b : Buffer) fn m mx e, b ≠ [] →
        ImageValidator.validateExtension fn = .ok () → m ≠ "" →
        ImageValidator.validateMimeType m = .error e →
        ImageValidator.validateFile (some b) fn (some m) mx = .error e)
    ∧ (∀ (b : Buffer) fn mi n e, b ≠ [] →
        ImageValidator.validateExtension fn = .ok () →
        (∀ m, mi = some m → m = "" ∨ ImageValidator.validateMimeType m = .ok ()) →
        n ≠ 0 → ImageValidator.validateFileSize b n = .error e →
        ImageValidator.validateFile (some b) fn mi (some n) = .error e)
    ∧ (∀ (b : Buffer) fn mi mx, b ≠ [] →
        ImageValidator.validateExtension fn = .ok () →
        (∀ m, mi = some m → m = "" ∨ ImageValidator.validateMimeType m = .ok ()) →
        (∀ n, mx = some n → n = 0 ∨ ImageValidator.validateFileSize b n = .ok ()) →
        ImageValidator.validateFile (some b) fn mi mx = .ok ())
    ∧ (∀ (b : Buffer) fn mx,
        ImageValidator.validateFile (some b) fn (some "") mx =
          ImageValidator.validateFile (some b) fn none mx)
    ∧ (∀ (b : Buffer) fn mi,
        ImageValidator.validateFile (some b) fn mi (some 0) =
          ImageValidator.validateFile (some b) fn mi none) := by
  have hlen : ∀ (b : Buffer), b ≠ [] → (b.length = 0) = False := by
    intro b hb
    simp [List.length_eq_zero, hb]
  refine ⟨fun fn mi mx => rfl, fun fn mi mx => rfl, ?_, ?_, ?_, ?_, ?_, ?_⟩
  · intro b fn mi mx e hb hext
    simp [ImageValidator.validateFile, hlen b hb, hext]
  · intro b fn m mx e hb hext hm hmt
    simp [ImageValidator.validateFile, hlen b hb, hext, hm, hmt]
  · intro b fn mi n e hb hext hmi hn hsz
    cases mi with
    | none => simp [ImageValidator.validateFile, hlen b hb, hext, hn, hsz]
    | some m =>
      rcases hmi m rfl with hm | hm
      · subst hm
        simp [ImageValidator.validateFile, hlen b hb, hext, hn, hsz]
      · by_cases hme : m = ""
        · subst hme
          simp [ImageValidator.validateFile, hlen b hb, hext, hn, hsz]
        · simp [ImageValidator.validateFile, hlen b hb, hext, hme, hm, hn, hsz]
  · intro b fn mi mx hb hext hmi hmx
    have hsz : ∀ n, mx = some n → n ≠ 0 →
        ImageValidator.validateFileSize b n = Except.ok () :=
      fun n h hn => (hmx n h).resolve_left hn
    have hmm : ∀ m, mi = some m → m ≠ "" →
        ImageValidator.validateMimeType m = Except.ok () :=
      fun m h hm => (hmi m h).resolve_left hm
    cases mi with
    | none =>
      cases mx with
      | none => simp [ImageValidator.validateFile, hlen b hb, hext]
      | some n =>
        by_cases hne : n = 0
        · simp [ImageValidator.validateFile, hlen b hb, hext, hne]
        · simp [ImageValidator.validateFile, hlen b hb, hext, hne, hsz n rfl hne]
    | some m =>
      by_cases hme : m = ""
      · cases mx with
        | none => simp [ImageValidator.validateFile, hlen b hb, hext, hme]
        | some n =>
          by_cases hne : n = 0
          · simp [ImageValidator.validateFile, hlen b hb, hext, hme, hne]
          · simp [ImageValidator.validateFile, hlen b hb, hext, hme, hne, hsz n rfl hne]
      · cases mx with
        | none => simp [ImageValidator.validateFile, hlen b hb, hext, hme, hmm m rfl hme]
        | some n =>
          by_cases hne : n = 0
          · simp [ImageValidator.validateFile, hlen b hb, hext, hme, hmm m rfl hme, hne]
          · simp [ImageValidator.validateFile, hlen b hb, hext, hme, hmm m rfl hme,
              hne, hsz n rfl hne]
  · intro b fn mx
    by_cases hb : b = []
    · subst hb; rfl
    · simp [ImageValidator.validateFile, hlen b hb]
  · intro b fn mi
    by_cases hb : b = []
    · subst hb; rfl
    · simp [ImageValidator.validateFile, hlen b hb]

/-- C1 counterexample: processImage on an empty buffer does reject
without invoking any capability (the trace is empty), but the rejection
is an ImageProcessingFailedError (code PROCESSING_FAILED) wrapping the
validator's ImageValidationError — the final catch block re-throws only
StorageError / ImageProcessingFailedError and wraps everything else —
so the ValidationFailed kind does not propagate to the caller as the
claim states (the repository's own pipeline test expects
ImageProcessingFailedError here as well). -/
theorem claimC1_counterexample :
    ImagePipelineService.processImage capsAllOk cfgExample "u" (some []) "x.jpg"
        none none =
      (.error (.processingFailed "Pipeline processing failed: File buffer is empty"
        (some (.validationError "File buffer is empty"))), [])
    ∧ JSError.code (.processingFailed "Pipeline processing failed: File buffer is empty"
        (some (.validationError "File buffer is empty"))) = "PROCESSING_FAILED"
    ∧ "PROCESSING_FAILED" ≠ "VALIDATION_ERROR" :=
  ⟨rfl, rfl, by decide⟩

/-- C1 (amended): for every filename, optional mimeType/maxBytes,
configuration and capabilities, processImage with an empty (zero-length
or absent) buffer rejects with an ImageProcessingFailedError whose
cause is the validator's ImageValidationError, without ever invoking
the Transform capability or the Storage capability (the invocation
trace is empty). -/
theorem claimC1 (caps : Caps) (config : ImageProcessingConfig) (uuid : String)
    (buffer : Option Buffer) (fn : String) (mi : Option String) (mx : Option Nat)
    (hbuf : buffer = none ∨ buffer = some []) :
    ImagePipelineService.processImage caps config uuid buffer fn mi mx =
      (.error (.processingFailed "Pipeline processing failed: File buffer is empty"
        (some (.validationError "File buffer is empty"))), ([] : List Event)) := by
  rcases hbuf with h | h <;> subst h <;> rfl

/-- C1 witness: the amended theorem applied to an absent buffer. -/
theorem claimC1_witness :
    ((none : Option Buffer) = none ∨ (none : Option Buffer) = some [])
    ∧ ImagePipelineService.processImage capsAllOk cfgSmall "w" none "y.png"
        none none =
      (.error (.processingFailed "Pipeline processing failed: File buffer is empty"
        (some (.validationError "File buffer is empty"))), ([] : List Event)) :=
  ⟨Or.inl rfl, claimC1 capsAllOk cfgSmall "w" none "y.png" none none (Or.inl rfl)⟩

/-- C3: when validation and the decodability check pass but the storage
upload of the original bytes fails, processImage rejects with a
StorageError (code STORAGE_ERROR) wrapping the driver's error, and the
invocation trace is exactly the decodability check followed by the one
failed original upload — in particular no Transform resize/encode call
is ever made and no derived-variant work happens. -/
theorem claimC3 (caps : Caps) (config : ImageProcessingConfig) (uuid : String)
    (b : Buffer) (fn : String) (mi : Option String) (mx : Option Nat) (e : JSError)
    (hval : ImageValidator.validateFile (some b) fn mi mx = .ok ())
    (hdec : caps.validateImage b = true)
    (hup : caps.upload (FileNamingUtils.generateOriginalPath uuid fn) b = .error e) :
    ImagePipelineService.processImage caps config uuid (some b) fn mi mx =
      (.error (.storageError
        ("Failed to upload file " ++ FileNamingUtils.generateOriginalPath uuid fn
          ++ ": " ++ e.message) (some e)),
       [.validateImageCall,
        .uploadCall (FileNamingUtils.generateOriginalPath uuid fn)]) := by
  unfold ImagePipelineService.processImage ImagePipelineService.processImageBody
  rw [hval]
  simp [hdec, hup, ImagePipelineService.catchWrap, ImagePipelineService.rethrownAsIs]

/-- C3 witness: the theorem applied to a storage driver whose upload
always fails with a plain Error. -/
theorem claimC3_witness :
    ImageValidator.validateFile (some [1]) "pic.jpg" none none = .ok ()
    ∧ capsUploadFail.validateImage [1] = true
    ∧ capsUploadFail.upload (FileNamingUtils.generateOriginalPath "u" "pic.jpg") [1] =
        .error (.generic "Storage failed")
    ∧ ImagePipelineService.processImage capsUploadFail cfgSmall "u" (some [1])
        "pic.jpg" none none =
      (.error (.storageError
        ("Failed to upload file " ++ FileNamingUtils.generateOriginalPath "u" "pic.jpg"
          ++ ": " ++ JSError.message (.generic "Storage failed"))
        (some (.generic "Storage failed"))),
       [.validateImageCall,
        .uploadCall (FileNamingUtils.generateOriginalPath "u" "pic.jpg")]) :=
  ⟨rfl, rfl, rfl,
    claimC3 capsUploadFail cfgSmall "u" [1] "pic.jpg" none none
      (.generic "Storage failed") rfl rfl rfl⟩

/-- C10: every rejection of processImage is a StorageError or an
ImageProcessingFailedError; when the body throws an error of any other
class (including the validators' ImageValidationError and
UnsupportedImageFormatError) the final catch block wraps it into an
ImageProcessingFailedError whose message is prefixed with
`Pipeline processing failed: ` and whose cause is the original error,
while body errors that already are StorageError or
ImageProcessingFailedError are re-thrown unchanged. -/
theorem claimC10 (caps : Caps) (config : ImageProcessingConfig) (uuid : String)
    (buffer : Option Buffer) (fn : String) (mi : Option String) (mx : Option Nat) :
    (∀ e tr, ImagePipelineService.processImage caps config uuid buffer fn mi mx =
        (.error e, tr) →
      (∃ m c, e = .storageError m c) ∨ (∃ m c, e = .processingFailed m c))
    ∧ (∀ e0, (ImagePipelineService.processImageBody caps config uuid buffer fn mi mx).1 =
        .error e0 →
        ImagePipelineService.rethrownAsIs e0 = false →
        (ImagePipelineService.processImage caps config uuid buffer fn mi mx).1 =
          .error (.processingFailed ("Pipeline processing failed: " ++ e0.message)
            (some e0)))
    ∧ (∀ e0, (ImagePipelineService.processImageBody caps config uuid buffer fn mi mx).1 =
        .error e0 →
        ImagePipelineService.rethrownAsIs e0 = true →
        (ImagePipelineService.processImage caps config uuid buffer fn mi mx).1 =
          .error e0) := by
  refine ⟨?_, ?_, ?_⟩
  · intro e tr h
    have h1 : ImagePipelineService.catchWrap
        (ImagePipelineService.processImageBody caps config uuid buffer fn mi mx).1 =
        .error e := by
      have h2 := congrArg Prod.fst h
      simpa [ImagePipelineService.processImage] using h2
    cases hb : (ImagePipelineService.processImageBody caps config uuid buffer fn mi mx).1 with
    | ok v =>
      rw [hb] at h1
      simp [ImagePipelineService.catchWrap] at h1
    | error e0 =>
      rw [hb] at h1
      cases e0 with
      | storageError m c =>
        simp [ImagePipelineService.catchWrap, ImagePipelineService.rethrownAsIs] at h1
        exact Or.inl ⟨m, c, h1.symm⟩
      | processingFailed m c =>
        simp [ImagePipelineService.catchWrap, ImagePipelineService.rethrownAsIs] at h1
        exact Or.inr ⟨m, c, h1.symm⟩
      | generic m =>
        simp [ImagePipelineService.catchWrap, ImagePipelineService.rethrownAsIs,
          JSError.message] at h1
        exact Or.inr ⟨_, _, h1.symm⟩
      | unsupportedFormat f =>
        simp [ImagePipelineService.catchWrap, ImagePipelineService.rethrownAsIs,
          JSError.message] at h1
        exact Or.inr ⟨_, _, h1.symm⟩
      | validationError m =>
        simp [ImagePipelineService.catchWrap, ImagePipelineService.rethrownAsIs,
          JSError.message] at h1
        exact Or.inr ⟨_, _, h1.symm⟩
  · intro e0 hb hr
    simp [ImagePipelineService.processImage, hb, ImagePipelineService.catchWrap, hr]
  · intro e0 hb hr
    simp [ImagePipelineService.processImage, hb, ImagePipelineService.catchWrap, hr]

/-- C10 witness: the wrapping branch applied to the validator's
ImageValidationError thrown on an empty buffer. -/
theorem claimC10_witness :
    (ImagePipelineService.processImageBody capsAllOk cfgSmall "w" (some []) "w.jpg"
        none none).1 = .error (.validationError "File buffer is empty")
    ∧ ImagePipelineService.rethrownAsIs (.validationError "File buffer is empty") = false
    ∧ (ImagePipelineService.processImage capsAllOk cfgSmall "w" (some []) "w.jpg"
        none none).1 =
      .error (.processingFailed
        ("Pipeline processing failed: " ++ JSError.message (.validationError "File buffer is empty"))
        (some (.validationError "File buffer is empty"))) :=
  ⟨rfl, rfl,
    (claimC10 capsAllOk cfgSmall "w" (some []) "w.jpg" none none).2.1
      (.validationError "File buffer is empty") rfl rfl⟩

/-! ## Dictionary and loop characterization lemmas -/

theorem dictGet_dictSet_self (d : Dict) (k : String) (v : List String) :
    dictGet (dictSet d k v) k = some v := by
  induction d with
  | nil => simp [dictSet, dictGet]
  | cons p rest ih =>
    obtain ⟨k', v'⟩ := p
    by_cases h : k' = k
    · subst h
      simp [dictSet, dictGet]
    · simp [dictSet, dictGet, h, ih]

theorem dictGet_dictSet_ne (d : Dict) (k t : String) (v : List String)
    (h : t ≠ k) : dictGet (dictSet d k v) t = dictGet d t := by
  have hkt : ¬ k = t := fun hh => h hh.symm
  induction d with
  | nil => simp [dictSet, dictGet, hkt]
  | cons p rest ih =>
    obtain ⟨k', v'⟩ := p
    by_cases hk : k' = k
    · subst hk
      simp [dictSet, dictGet, hkt]
    · by_cases ht : k' = t
      · simp [dictSet, dictGet, hk, ht, h]
      · simp [dictSet, dictGet, hk, ht, ih]

theorem dictGet_dictPush_self (d : Dict) (k : String) (p : String) :
    dictGet (dictPush d k p) k = (dictGet d k).map (fun l => l ++ [p]) := by
  induction d with
  | nil => simp [dictPush, dictGet]
  | cons q rest ih =>
    obtain ⟨k', v'⟩ := q
    by_cases h : k' = k
    · subst h
      simp [dictPush, dictGet]
    · simp [dictPush, dictGet, h, ih]

theorem dictGet_dictPush_ne (d : Dict) (k t : String) (p : String)
    (h : t ≠ k) : dictGet (dictPush d k p) t = dictGet d t := by
  induction d with
  | nil => simp [dictPush, dictGet]
  | cons q rest ih =>
    obtain ⟨k', v'⟩ := q
    by_cases hk : k' = k
    · subst hk
      have hx : ¬ k' = t := fun hh => h hh.symm
      simp [dictPush, dictGet, hx]
    · by_cases ht : k' = t
      · simp [dictPush, dictGet, hk, ht, h]
      · simp [dictPush, dictGet, hk, ht, ih]

theorem dictGet_initFold (formats : List ImageFormat) (d0 : Dict) (t : String) :
    dictGet (formats.foldl (fun d f => dictSet d f.type []) d0) t =
      if formats.any (fun f => f.type == t) then some [] else dictGet d0 t := by
  induction formats generalizing d0 with
  | nil => simp
  | cons f fs ih =>
    simp only [List.foldl_cons, List.any_cons]
    rw [ih]
    by_cases h : f.type = t
    · by_cases h2 : fs.any (fun f => f.type == t)
      · simp [h, h2]
      · simp [h, h2, dictGet_dictSet_self]
    · by_cases h2 : fs.any (fun f => f.type == t)
      · simp [h, h2]
      · have hne : t ≠ f.type := fun hh => h hh.symm
        simp [h, h2, dictGet_dictSet_ne _ _ _ _ hne]

theorem dictGet_initDict (formats : List ImageFormat) (t : String) :
    dictGet (ImagePipelineService.initDict formats) t =
      if formats.any (fun f => f.type == t) then some [] else none := by
  rw [ImagePipelineService.initDict, dictGet_initFold]
  rfl

theorem runDprLoop_fst (caps : Caps) (b : Buffer) (fn : String)
    (s : ImageSize) (f : ImageFormat) (rs : List Nat) (d : Dict) (t : String) :
    dictGet (ImagePipelineService.runDprLoop caps b fn s f rs d).1 t =
      (dictGet d t).map (fun l => l ++ (rs.flatMap fun r =>
        if f.type = t then
          (ImagePipelineService.runTuple caps b fn s f r).1.toList
        else [])) := by
  induction rs generalizing d with
  | nil =>
    cases hd : dictGet d t <;>
      simp [ImagePipelineService.runDprLoop, hd]
  | cons r rs ih =>
    simp only [ImagePipelineService.runDprLoop]
    cases hstep : (ImagePipelineService.runTuple caps b fn s f r).1 with
    | none =>
      rw [ih]
      cases hd : dictGet d t <;> simp [hstep, hd]
    | some p =>
      rw [ih]
      by_cases hft : f.type = t
      · subst hft
        rw [dictGet_dictPush_self]
        cases hd : dictGet d f.type <;> simp [hstep, hd]
      · have hne : t ≠ f.type := fun hh => hft hh.symm
        rw [dictGet_dictPush_ne _ _ _ _ hne]
        cases hd : dictGet d t <;> simp [hstep, hd, hft]

theorem runFormatLoop_fst (caps : Caps) (b : Buffer) (fn : String)
    (s : ImageSize) (ratios : List Nat) (fs : List ImageFormat) (d : Dict)
    (t : String) :
    dictGet (ImagePipelineService.runFormatLoop caps b fn s ratios fs d).1 t =
      (dictGet d t).map (fun l => l ++ (fs.flatMap fun f => ratios.flatMap fun r =>
        if f.type = t then
          (ImagePipelineService.runTuple caps b fn s f r).1.toList
        else [])) := by
  induction fs generalizing d with
  | nil =>
    cases hd : dictGet d t <;>
      simp [ImagePipelineService.runFormatLoop, hd]
  | cons f fs ih =>
    simp only [ImagePipelineService.runFormatLoop]
    rw [ih, runDprLoop_fst]
    cases hd : dictGet d t <;> simp [hd, List.append_assoc]

theorem runSizeLoop_fst (caps : Caps) (b : Buffer) (fn : String)
    (formats : List ImageFormat) (ratios : List Nat) (ss : List ImageSize)
    (d : Dict) (t : String) :
    dictGet (ImagePipelineService.runSizeLoop caps b fn formats ratios ss d).1 t =
      (dictGet d t).map (fun l => l ++
        ImagePipelineService.successList caps b fn ss formats ratios t) := by
  induction ss generalizing d with
  | nil =>
    cases hd : dictGet d t <;>
      simp [ImagePipelineService.runSizeLoop, ImagePipelineService.successList, hd]
  | cons s ss ih =>
    simp only [ImagePipelineService.runSizeLoop]
    rw [ih, runFormatLoop_fst]
    cases hd : dictGet d t <;>
      simp [hd, ImagePipelineService.successList, List.append_assoc]

theorem runDprLoop_snd (caps : Caps) (b : Buffer) (fn : String)
    (s : ImageSize) (f : ImageFormat) (rs : List Nat) (d : Dict) :
    (ImagePipelineService.runDprLoop caps b fn s f rs d).2 =
      rs.flatMap fun r => (ImagePipelineService.runTuple caps b fn s f r).2 := by
  induction rs generalizing d with
  | nil => simp [ImagePipelineService.runDprLoop]
  | cons r rs ih => simp [ImagePipelineService.runDprLoop, ih]

theorem runFormatLoop_snd (caps : Caps) (b : Buffer) (fn : String)
    (s : ImageSize) (ratios : List Nat) (fs : List ImageFormat) (d : Dict) :
    (ImagePipelineService.runFormatLoop caps b fn s ratios fs d).2 =
      fs.flatMap fun f => ratios.flatMap fun r =>
        (ImagePipelineService.runTuple caps b fn s f r).2 := by
  induction fs generalizing d with
  | nil => simp [ImagePipelineService.runFormatLoop]
  | cons f fs ih => simp [ImagePipelineService.runFormatLoop, ih, runDprLoop_snd]

theorem runSizeLoop_snd (caps : Caps) (b : Buffer) (fn : String)
    (formats : List ImageFormat) (ratios : List Nat) (ss : List ImageSize)
    (d : Dict) :
    (ImagePipelineService.runSizeLoop caps b fn formats ratios ss d).2 =
      ss.flatMap fun s => formats.flatMap fun f => ratios.flatMap fun r =>
        (ImagePipelineService.runTuple caps b fn s f r).2 := by
  induction ss generalizing d with
  | nil => simp [ImagePipelineService.runSizeLoop]
  | cons s ss ih => simp [ImagePipelineService.runSizeLoop, ih, runFormatLoop_snd]

/-- When validation, the decodability check and the original upload all
succeed, processImage runs the triple loop from the initialized
dictionary and resolves with the original path and the loop's
dictionary, tracing the decode check, the original upload and the loop
trace. -/
theorem processImage_ok_eq (caps : Caps) (config : ImageProcessingConfig)
    (uuid : String) (b : Buffer) (fn : String) (mi : Option String)
    (mx : Option Nat) (origP : String)
    (hval : ImageValidator.validateFile (some b) fn mi mx = .ok ())
    (hdec : caps.validateImage b = true)
    (hup : caps.upload (FileNamingUtils.generateOriginalPath uuid fn) b = .ok origP) :
    ImagePipelineService.processImage caps config uuid (some b) fn mi mx =
      (.ok { original := FileNamingUtils.generateOriginalPath uuid fn,
             generated := (ImagePipelineService.runSizeLoop caps b fn
               config.formats config.dpr.ratios config.sizes
               (ImagePipelineService.initDict config.formats)).1 },
       [.validateImageCall, .uploadCall (FileNamingUtils.generateOriginalPath uuid fn)] ++
         (ImagePipelineService.runSizeLoop caps b fn config.formats
           config.dpr.ratios config.sizes
           (ImagePipelineService.initDict config.formats)).2) := by
  unfold ImagePipelineService.processImage ImagePipelineService.processImageBody
  rw [hval]
  simp [hdec, hup, ImagePipelineService.catchWrap]

theorem bind_const_nil {α β : Type} (l : List α) :
    (l.flatMap fun _ => ([] : List β)) = [] := by
  induction l with
  | nil => rfl
  | cons x xs ih => simp [ih]

theorem bind_singleton_eq_map {α β : Type} (l : List α) (g : α → β) :
    (l.flatMap fun x => [g x]) = l.map g := by
  induction l with
  | nil => rfl
  | cons x xs ih => simp [ih]

/-- In a format list whose types are pairwise distinct, only the member
with the given type contributes to a bind filtered on that type. -/
theorem formats_bind_single {β : Type} (fs : List ImageFormat) (f : ImageFormat)
    (hf : f ∈ fs) (hnd : (fs.map (fun g => g.type)).Nodup)
    (F : ImageFormat → List β) :
    (fs.flatMap fun g => if g.type = f.type then F g else []) = F f := by
  induction fs with
  | nil => cases hf
  | cons g gs ih =>
    simp only [List.map_cons, List.nodup_cons] at hnd
    obtain ⟨hni, hnd2⟩ := hnd
    rcases List.mem_cons.mp hf with h | h
    · subst h
      simp only [List.flatMap_cons, if_pos rfl]
      have hz : (gs.flatMap fun g2 => if g2.type = f.type then F g2 else []) = [] := by
        refine List.flatMap_eq_nil_iff.mpr ?_
        intro x hx
        have hmem : x.type ∈ gs.map (fun g => g.type) :=
          List.mem_map_of_mem (fun g => g.type) hx
        have hne : ¬ (x.type = f.type) := by
          intro hh
          rw [hh] at hmem
          exact hni hmem
        simp [hne]
      rw [hz, List.append_nil]
      simp
    · have hgf : ¬ (g.type = f.type) := by
        intro hh
        have hmem : f.type ∈ gs.map (fun g => g.type) :=
          List.mem_map_of_mem (fun g => g.type) h
        rw [← hh] at hmem
        exact hni hmem
      simp only [List.flatMap_cons, if_neg hgf, List.nil_append]
      exact ih h hnd2

/-- The loop started from the initialized dictionary maps every
configured format's type to exactly the successful paths for that
type. -/
theorem dictGet_loop_formats (caps : Caps) (b : Buffer) (fn : String)
    (formats : List ImageFormat) (ratios : List Nat) (ss : List ImageSize)
    (f : ImageFormat) (hf : f ∈ formats) :
    dictGet (ImagePipelineService.runSizeLoop caps b fn formats ratios ss
      (ImagePipelineService.initDict formats)).1 f.type =
      some (ImagePipelineService.successList caps b fn ss formats ratios f.type) := by
  rw [runSizeLoop_fst, dictGet_initDict]
  have hany : formats.any (fun g => g.type == f.type) = true :=
    List.any_eq_true.mpr ⟨f, hf, by simp⟩
  simp [hany]

/-- C2: whenever validation, the decodability check and the original
upload succeed, processImage resolves (no exception reaches the caller)
with the original path and, for every configured format, exactly the
paths of the tuples whose transform and storage write both succeeded,
in size-major, format-middle, dpr-minor iteration order; failing tuples
contribute no entry.  The capabilities are arbitrary, so any subset of
the tuples may fail. -/
theorem claimC2 (caps : Caps) (config : ImageProcessingConfig) (uuid : String)
    (b : Buffer) (fn : String) (mi : Option String) (mx : Option Nat)
    (origP : String)
    (hval : ImageValidator.validateFile (some b) fn mi mx = .ok ())
    (hdec : caps.validateImage b = true)
    (hup : caps.upload (FileNamingUtils.generateOriginalPath uuid fn) b = .ok origP) :
    ∃ r, (ImagePipelineService.processImage caps config uuid (some b) fn mi mx).1 =
        .ok r
      ∧ r.original = FileNamingUtils.generateOriginalPath uuid fn
      ∧ ∀ f ∈ config.formats,
          dictGet r.generated f.type =
            some (ImagePipelineService.successList caps b fn config.sizes
              config.formats config.dpr.ratios f.type) := by
  have h := processImage_ok_eq caps config uuid b fn mi mx origP hval hdec hup
  refine ⟨⟨FileNamingUtils.generateOriginalPath uuid fn,
    (ImagePipelineService.runSizeLoop caps b fn config.formats config.dpr.ratios
      config.sizes (ImagePipelineService.initDict config.formats)).1⟩, ?_, rfl, ?_⟩
  · rw [h]
  · intro f hf
    exact dictGet_loop_formats caps b fn config.formats config.dpr.ratios
      config.sizes f hf

/-- C2 witness: the theorem applied to the spec's partial-failure
scenario, where the transform fails for exactly the (640, avif, 2)
tuple. -/
theorem claimC2_witness :
    ImageValidator.validateFile (some [1]) "pic.jpg" none none = .ok ()
    ∧ capsOneTupleFail.validateImage [1] = true
    ∧ capsOneTupleFail.upload (FileNamingUtils.generateOriginalPath "u" "pic.jpg") [1] =
        .ok "/uploads/originals/u.jpg"
    ∧ ∃ r, (ImagePipelineService.processImage capsOneTupleFail cfgExample "u"
          (some [1]) "pic.jpg" none none).1 = .ok r
        ∧ r.original = FileNamingUtils.generateOriginalPath "u" "pic.jpg"
        ∧ ∀ f ∈ cfgExample.formats,
            dictGet r.generated f.type =
              some (ImagePipelineService.successList capsOneTupleFail [1] "pic.jpg"
                cfgExample.sizes cfgExample.formats cfgExample.dpr.ratios f.type) :=
  ⟨rfl, rfl, rfl,
    claimC2 capsOneTupleFail cfgExample "u" [1] "pic.jpg" none none
      "/uploads/originals/u.jpg" rfl rfl rfl⟩

/-- C4 counterexample: with two configured formats sharing the type
webp (one size, one DPR ratio, every call succeeding), the pipeline
pushes both formats' variants into the single `generated.webp` list, so
that list has 2 entries while the claim's |sizes| x |dpr.ratios| count
is 1. -/
theorem claimC4_counterexample :
    (ImagePipelineService.processImage capsAllOk cfgDupFormats "u" (some [1])
        "pic.jpg" none none).1 =
      .ok { original := "/uploads/originals/u.jpg",
            generated := [("webp", ["pic_320w@1x.webp", "pic_320w@1x.webp"])] }
    ∧ (["pic_320w@1x.webp", "pic_320w@1x.webp"] : List String).length ≠
        cfgDupFormats.sizes.length * cfgDupFormats.dpr.ratios.length :=
  ⟨rfl, by decide⟩

/-- C4 (amended): when every transform and storage call succeeds and
the configured format types are pairwise distinct, processImage
enumerates the full Cartesian product of sizes, formats and DPR ratios
in size-major, format-middle, dpr-minor order, so each configured
format's list in `generated` is exactly the per-size, per-ratio list of
uploaded variant paths — in particular it has |sizes| x |dpr.ratios|
entries with all DPR variants of an earlier size before any variant of
a later size. -/
theorem claimC4 (tf : Buffer → ImageSize → ImageFormat → ProcessedImage)
    (up : String → Buffer → String) (config : ImageProcessingConfig)
    (uuid : String) (b : Buffer) (fn : String) (mi : Option String)
    (mx : Option Nat)
    (hval : ImageValidator.validateFile (some b) fn mi mx = .ok ())
    (hnd : (config.formats.map (fun f => f.type)).Nodup) :
    ∃ r, (ImagePipelineService.processImage (capsTotal tf up) config uuid (some b)
        fn mi mx).1 = .ok r
      ∧ ∀ f ∈ config.formats,
          dictGet r.generated f.type =
            some (config.sizes.flatMap fun s => config.dpr.ratios.map fun d =>
              up (FileNamingUtils.generateFileName fn s.width f.type d)
                (tf b { width := s.width * d, height := s.height.map fun h => h * d }
                  f).buffer) := by
  have h := processImage_ok_eq (capsTotal tf up) config uuid b fn mi mx
    (up (FileNamingUtils.generateOriginalPath uuid fn) b) hval rfl rfl
  refine ⟨⟨FileNamingUtils.generateOriginalPath uuid fn,
    (ImagePipelineService.runSizeLoop (capsTotal tf up) b fn config.formats
      config.dpr.ratios config.sizes
      (ImagePipelineService.initDict config.formats)).1⟩, ?_, ?_⟩
  · rw [h]
  · intro f hf
    rw [dictGet_loop_formats (capsTotal tf up) b fn config.formats
      config.dpr.ratios config.sizes f hf]
    congr 1
    simp only [ImagePipelineService.successList]
    refine congrArg (List.flatMap config.sizes) (funext fun s => ?_)
    have h1 : (config.formats.flatMap fun g => config.dpr.ratios.flatMap fun r2 =>
        if g.type = f.type then
          (ImagePipelineService.runTuple (capsTotal tf up) b fn s g r2).1.toList
        else []) =
        (config.formats.flatMap fun g =>
          if g.type = f.type then
            config.dpr.ratios.flatMap fun r2 =>
              (ImagePipelineService.runTuple (capsTotal tf up) b fn s g r2).1.toList
          else []) := by
      refine congrArg (List.flatMap config.formats) (funext fun g => ?_)
      by_cases hg : g.type = f.type <;> simp [hg]
    rw [h1, formats_bind_single config.formats f hf hnd
      (fun g => config.dpr.ratios.flatMap fun r2 =>
        (ImagePipelineService.runTuple (capsTotal tf up) b fn s g r2).1.toList)]
    have h2 : (fun r2 : Nat =>
        (ImagePipelineService.runTuple (capsTotal tf up) b fn s f r2).1.toList) =
        (fun r2 : Nat =>
          [up (FileNamingUtils.generateFileName fn s.width f.type r2)
            (tf b { width := s.width * r2, height := s.height.map fun h => h * r2 }
              f).buffer]) :=
      funext fun r2 => rfl
    rw [h2, bind_singleton_eq_map]

/-- C4 witness: the amended theorem applied to the spec's example
configuration with the all-success stub. -/
theorem claimC4_witness :
    ImageValidator.validateFile (some [1]) "pic.jpg" none none = .ok ()
    ∧ (cfgExample.formats.map (fun f => f.type)).Nodup
    ∧ ∃ r, (ImagePipelineService.processImage (capsTotal tfConst upEcho) cfgExample
          "u" (some [1]) "pic.jpg" none none).1 = .ok r
        ∧ ∀ f ∈ cfgExample.formats,
            dictGet r.generated f.type =
              some (cfgExample.sizes.flatMap fun s => cfgExample.dpr.ratios.map fun d =>
                upEcho (FileNamingUtils.generateFileName "pic.jpg" s.width f.type d)
                  (tfConst [1]
                    { width := s.width * d, height := s.height.map fun h => h * d }
                    f).buffer) :=
  ⟨rfl, by decide,
    claimC4 tfConst upEcho cfgExample "u" [1] "pic.jpg" none none rfl (by decide)⟩

/-- C5: every format type present in the configuration's formats list
is a key of `generated` in every successfully resolving processImage
call (first conjunct), and an empty sizes, formats or dpr axis yields a
successful result whose per-format lists are all empty rather than an
error (second conjunct). -/
theorem claimC5 :
    (∀ (caps : Caps) (config : ImageProcessingConfig) (uuid : String)
        (buffer : Option Buffer) (fn : String) (mi : Option String)
        (mx : Option Nat) (r : ImagePipelineService.ImageProcessingResult)
        (tr : List Event),
      ImagePipelineService.processImage caps config uuid buffer fn mi mx =
        (.ok r, tr) →
      ∀ f ∈ config.formats, (dictGet r.generated f.type).isSome = true)
    ∧ (∀ (caps : Caps) (config : ImageProcessingConfig) (uuid : String)
        (b : Buffer) (fn : String) (mi : Option String) (mx : Option Nat)
        (origP : String),
        ImageValidator.validateFile (some b) fn mi mx = .ok () →
        caps.validateImage b = true →
        caps.upload (FileNamingUtils.generateOriginalPath uuid fn) b = .ok origP →
        (config.sizes = [] ∨ config.formats = [] ∨ config.dpr.ratios = []) →
        ∃ r, (ImagePipelineService.processImage caps config uuid (some b) fn
            mi mx).1 = .ok r
          ∧ ∀ f ∈ config.formats, dictGet r.generated f.type = some []) := by
  constructor
  · intro caps config uuid buffer fn mi mx r tr h f hf
    have h1 : ImagePipelineService.catchWrap
        (ImagePipelineService.processImageBody caps config uuid buffer fn mi mx).1 =
        .ok r := by
      have h2 := congrArg Prod.fst h
      simpa [ImagePipelineService.processImage] using h2
    have hb : (ImagePipelineService.processImageBody caps config uuid buffer fn
        mi mx).1 = .ok r := by
      cases hb2 : (ImagePipelineService.processImageBody caps config uuid buffer fn
          mi mx).1 with
      | ok v =>
        rw [hb2] at h1
        simpa [ImagePipelineService.catchWrap] using h1
      | error e0 =>
        rw [hb2] at h1
        by_cases hr : ImagePipelineService.rethrownAsIs e0 <;>
          simp [ImagePipelineService.catchWrap, hr] at h1
    unfold ImagePipelineService.processImageBody at hb
    cases hv : ImageValidator.validateFile buffer fn mi mx with
    | error e =>
      rw [hv] at hb
      simp at hb
    | ok u =>
      cases u
      rw [hv] at hb
      by_cases hd : caps.validateImage (buffer.getD []) = true
      · cases hu : caps.upload (FileNamingUtils.generateOriginalPath uuid fn)
            (buffer.getD []) with
        | error e => simp [hd, hu] at hb
        | ok p =>
          simp [hd, hu] at hb
          rw [← hb]
          rw [dictGet_loop_formats caps (buffer.getD []) fn config.formats
            config.dpr.ratios config.sizes f hf]
          rfl
      · simp [hd] at hb
  · intro caps config uuid b fn mi mx origP hval hdec hup hax
    refine ⟨⟨FileNamingUtils.generateOriginalPath uuid fn,
      (ImagePipelineService.runSizeLoop caps b fn config.formats config.dpr.ratios
        config.sizes (ImagePipelineService.initDict config.formats)).1⟩, ?_, ?_⟩
    · rw [processImage_ok_eq caps config uuid b fn mi mx origP hval hdec hup]
    · intro f hf
      rw [dictGet_loop_formats caps b fn config.formats config.dpr.ratios
        config.sizes f hf]
      rcases hax with hx | hx | hx
      · simp [ImagePipelineService.successList, hx]
      · rw [hx] at hf
        cases hf
      · simp [ImagePipelineService.successList, hx, bind_const_nil]

/-- C5 witness: the first conjunct applied to a concrete successful
run, and the second applied to a configuration with an empty sizes
axis. -/
theorem claimC5_witness :
    ImagePipelineService.processImage capsAllOk cfgSmall "u" (some [1]) "pic.jpg"
        none none =
      (.ok { original := "/uploads/originals/u.jpg",
             generated := [("webp", ["pic_320w@1x.webp"])] },
       [.validateImageCall, .uploadCall "/uploads/originals/u.jpg",
        .transformCall 320 none "webp", .uploadCall "pic_320w@1x.webp"])
    ∧ (dictGet (({ original := "/uploads/originals/u.jpg",
                   generated := [("webp", ["pic_320w@1x.webp"])] } :
          ImagePipelineService.ImageProcessingResult)).generated "webp").isSome = true
    ∧ (∃ r, (ImagePipelineService.processImage capsAllOk cfgEmptyAxis "u" (some [1])
          "e.jpg" none none).1 = .ok r
        ∧ ∀ f ∈ cfgEmptyAxis.formats, dictGet r.generated f.type = some []) :=
  ⟨rfl,
    claimC5.1 capsAllOk cfgSmall "u" (some [1]) "pic.jpg" none none
      { original := "/uploads/originals/u.jpg",
        generated := [("webp", ["pic_320w@1x.webp"])] }
      [.validateImageCall, .uploadCall "/uploads/originals/u.jpg",
       .transformCall 320 none "webp", .uploadCall "pic_320w@1x.webp"]
      rfl { type := "webp", quality := some 80 } (by simp [cfgSmall]),
    claimC5.2 capsAllOk cfgEmptyAxis "u" [1] "e.jpg" none none
      "/uploads/originals/u.jpg" rfl rfl rfl (Or.inl rfl)⟩

/-- C6: when validation passes and every capability call succeeds, the
invocation trace is the decodability check, the original upload, and
then for each (size, format, dpr) tuple in iteration order a transform
call at the DPR-scaled effective size (width times dpr, height times
dpr when present, no height constraint otherwise) followed by a storage
upload whose variant filename embeds the nominal width and the dpr as
the @Nx suffix. -/
theorem claimC6 (tf : Buffer → ImageSize → ImageFormat → ProcessedImage)
    (up : String → Buffer → String) (config : ImageProcessingConfig)
    (uuid : String) (b : Buffer) (fn : String) (mi : Option String)
    (mx : Option Nat)
    (hval : ImageValidator.validateFile (some b) fn mi mx = .ok ()) :
    (ImagePipelineService.processImage (capsTotal tf up) config uuid (some b)
        fn mi mx).2 =
      [.validateImageCall,
       .uploadCall (FileNamingUtils.generateOriginalPath uuid fn)] ++
      (config.sizes.flatMap fun s => config.formats.flatMap fun f =>
        config.dpr.ratios.flatMap fun r =>
          [Event.transformCall (s.width * r) (s.height.map fun h => h * r) f.type,
           Event.uploadCall (FileNamingUtils.generateFileName fn s.width f.type r)]) := by
  have h := processImage_ok_eq (capsTotal tf up) config uuid b fn mi mx
    (up (FileNamingUtils.generateOriginalPath uuid fn) b) hval rfl rfl
  have h2 : (ImagePipelineService.processImage (capsTotal tf up) config uuid
      (some b) fn mi mx).2 =
      [.validateImageCall,
       .uploadCall (FileNamingUtils.generateOriginalPath uuid fn)] ++
      (ImagePipelineService.runSizeLoop (capsTotal tf up) b fn config.formats
        config.dpr.ratios config.sizes
        (ImagePipelineService.initDict config.formats)).2 := by
    rw [h]
  rw [h2, runSizeLoop_snd]
  congr 1

/-- C6 witness: the theorem applied to the one-tuple configuration with
concrete total capabilities. -/
theorem claimC6_witness :
    ImageValidator.validateFile (some [1]) "pic.jpg" none none = .ok ()
    ∧ (ImagePipelineService.processImage (capsTotal tfConst upEcho) cfgSmall "u"
        (some [1]) "pic.jpg" none none).2 =
      [.validateImageCall,
       .uploadCall (FileNamingUtils.generateOriginalPath "u" "pic.jpg")] ++
      (cfgSmall.sizes.flatMap fun s => cfgSmall.formats.flatMap fun f =>
        cfgSmall.dpr.ratios.flatMap fun r =>
          [Event.transformCall (s.width * r) (s.height.map fun h => h * r) f.type,
           Event.uploadCall
             (FileNamingUtils.generateFileName "pic.jpg" s.width f.type r)]) :=
  ⟨rfl, claimC6 tfConst upEcho cfgSmall "u" [1] "pic.jpg" none none rfl⟩

theorem getD_append_length {α : Type} (l : List α) (v d : α) :
    (l ++ [v]).getD l.length d = v := by
  induction l with
  | nil => rfl
  | cons x xs ih => simp [List.cons_append, ih]

theorem getD_append_lt {α : Type} (l : List α) (v d : α) (n : Nat)
    (h : n < l.length) : (l ++ [v]).getD n d = l.getD n d := by
  induction l generalizing n with
  | nil => cases h
  | cons x xs ih =>
    cases n with
    | zero => rfl
    | succ m =>
      have hm : m < xs.length := Nat.lt_of_succ_lt_succ (by simpa using h)
      simpa [List.cons_append] using ih m hm

theorem getD_set_ne {α : Type} (l : List α) (m n : Nat) (v d : α)
    (h : n ≠ m) : (l.set m v).getD n d = l.getD n d := by
  induction l generalizing m n with
  | nil => rfl
  | cons x xs ih =>
    cases m with
    | zero =>
      cases n with
      | zero => exact absurd rfl h
      | succ k => rfl
    | succ m2 =>
      cases n with
      | zero => rfl
      | succ k =>
        have hk : k ≠ m2 := fun hh => h (by rw [hh])
        simpa [List.set] using ih m2 k hk

theorem getD_append_self {α : Type} (l : List α) (n : Nat) (d : α) :
    (l ++ [l.getD n d]).getD n d = l.getD n d := by
  induction l generalizing n with
  | nil => cases n <;> rfl
  | cons x xs ih =>
    cases n with
    | zero => rfl
    | succ m => simpa [List.cons_append] using ih m

/-- Reading back the array the `sizes` getter returns yields the
contents of the internal `_sizes` cell at read time. -/
theorem read_getSizes (h : ConfigHeap.Heap) (cfg : ConfigHeap.ConfigObject) :
    ConfigHeap.read (ConfigHeap.getSizes h cfg).1 (ConfigHeap.getSizes h cfg).2 =
      ConfigHeap.read h cfg.sizesRef := by
  simp [ConfigHeap.getSizes, ConfigHeap.alloc, ConfigHeap.read, getD_append_length]

/-- C9, in the heap model of JS array references: after
`config.setSizes(arr)`, mutating the caller's array `arr` in place does
not change what a later `config.sizes` read returns (first conjunct);
and after reading `config.sizes` twice, mutating the first returned
array does not affect the contents of the array the second read
returned (second conjunct) — the setter spreads its argument into a
fresh cell and the getter returns a fresh copy on every call. -/
theorem claimC9 :
    (∀ (h : ConfigHeap.Heap) (cfg : ConfigHeap.ConfigObject) (arg : Nat)
        (arr2 : List ImageSize), arg < h.cells.length →
      ConfigHeap.read
          (ConfigHeap.getSizes
            (ConfigHeap.write (ConfigHeap.setSizes h cfg arg).1 arg arr2)
            (ConfigHeap.setSizes h cfg arg).2).1
          (ConfigHeap.getSizes
            (ConfigHeap.write (ConfigHeap.setSizes h cfg arg).1 arg arr2)
            (ConfigHeap.setSizes h cfg arg).2).2 =
        ConfigHeap.read h arg)
    ∧ (∀ (h : ConfigHeap.Heap) (cfg : ConfigHeap.ConfigObject)
        (arr2 : List ImageSize),
      ConfigHeap.read
          (ConfigHeap.write
            (ConfigHeap.getSizes (ConfigHeap.getSizes h cfg).1 cfg).1
            (ConfigHeap.getSizes h cfg).2 arr2)
          (ConfigHeap.getSizes (ConfigHeap.getSizes h cfg).1 cfg).2 =
        ConfigHeap.read h cfg.sizesRef) := by
  constructor
  · intro h cfg arg arr2 harg
    rw [read_getSizes]
    simp only [ConfigHeap.setSizes, ConfigHeap.alloc, ConfigHeap.write,
      ConfigHeap.read]
    have hne : h.cells.length ≠ arg := Nat.ne_of_gt harg
    rw [getD_set_ne _ _ _ _ _ hne, getD_append_length]
  · intro h cfg arr2
    simp only [ConfigHeap.getSizes, ConfigHeap.alloc, ConfigHeap.write,
      ConfigHeap.read]
    have hne : (h.cells ++ [h.cells.getD cfg.sizesRef []]).length ≠ h.cells.length := by
      simp
    rw [getD_set_ne _ _ _ _ _ hne, getD_append_length, getD_append_self]

/-- C9 witness: the setter-isolation conjunct applied to a one-cell
heap. -/
theorem claimC9_witness :
    0 < (ConfigHeap.Heap.mk [[{ width := 100 }]]).cells.length
    ∧ ConfigHeap.read
        (ConfigHeap.getSizes
          (ConfigHeap.write
            (ConfigHeap.setSizes (ConfigHeap.Heap.mk [[{ width := 100 }]])
              (ConfigHeap.ConfigObject.mk 0) 0).1 0 [])
          (ConfigHeap.setSizes (ConfigHeap.Heap.mk [[{ width := 100 }]])
            (ConfigHeap.ConfigObject.mk 0) 0).2).1
        (ConfigHeap.getSizes
          (ConfigHeap.write
            (ConfigHeap.setSizes (ConfigHeap.Heap.mk [[{ width := 100 }]])
              (ConfigHeap.ConfigObject.mk 0) 0).1 0 [])
          (ConfigHeap.setSizes (ConfigHeap.Heap.mk [[{ width := 100 }]])
            (ConfigHeap.ConfigObject.mk 0) 0).2).2 =
      ConfigHeap.read (ConfigHeap.Heap.mk [[{ width := 100 }]]) 0 :=
  ⟨by decide,
    claimC9.1 (ConfigHeap.Heap.mk [[{ width := 100 }]])
      (ConfigHeap.ConfigObject.mk 0) 0 [] (by decide)⟩

end ImageProc
